import Mathlib

set_option autoImplicit false

/-!
Shallow embedding of `src/rezplugins/package_repository/filesystem.py`,
the filesystem-based package repository plugin: documents (parsed package
metadata), the split-layout and combined-layout resource operations, the
legacy-format migration, and the repository facade.
-/

namespace Rez

/-- Values occurring in a parsed package metadata document (the Python values
the metadata loader produces that the claims observe): strings, integers, and
lists of strings (e.g. a changelog supplied as a list of lines, or a version
list). -/
inductive Val where
  | vstr : String → Val
  | vint : Int → Val
  | vstrs : List String → Val
deriving DecidableEq, Repr

/-- A metadata document: an ordered association list from field name to value,
modelling a Python dict (keys unique, insertion order preserved). -/
abbrev Doc := List (String × Val)

namespace Doc

/-- Python `d.get(k)`: the value at the first entry with key `k`. -/
def get (d : Doc) (k : String) : Option Val :=
  match d with
  | [] => none
  | (k', v) :: rest => if k' = k then some v else get rest k

/-- Python `del d[k]`, made total: removes every entry with key `k`. -/
def erase (d : Doc) (k : String) : Doc :=
  match d with
  | [] => []
  | (k', v) :: rest => if k' = k then erase rest k else (k', v) :: erase rest k

/-- Python `d[k] = v`: bind `k` to `v` (position of the binding is immaterial
to `get`, which is all the claims observe). -/
def set (d : Doc) (k : String) (v : Val) : Doc :=
  (k, v) :: d.erase k

/-- Python `d.update(d2)`: set each entry of `d2` into `d`, in order. -/
def update (d d2 : Doc) : Doc :=
  d2.foldl (fun a p => a.set p.1 p.2) d

/-- The keys of a document, in order. -/
def keys (d : Doc) : List String := d.map (·.1)

end Doc

/-- Python truthiness of a document value (`if changelog:` etc.). -/
def valTruthy : Val → Bool
  | .vstr s => !s.isEmpty
  | .vint n => n != 0
  | .vstrs l => !l.isEmpty

/-- Python `os.path.join` for the two-component joins the source performs. -/
def joinPath (a b : String) : String := a ++ "/" ++ b

/-- The structured-file formats of `rez.serialise.FileFormat` used here. -/
inductive FileFormat where
  | py
  | yaml
  | txt
deriving DecidableEq, Repr

def FileFormat.extension : FileFormat → String
  | .py => "py"
  | .yaml => "yaml"
  | .txt => "txt"

/-- The `_get_file` utility: probe for `name.py` then `name.yaml` under
`path`, returning the first hit. The on-disk state is abstracted by the
`isFile` predicate (`os.path.isfile`). -/
def _get_file (isFile : String → Bool) (path name : String) :
    Option (String × FileFormat) :=
  let tryFmt := fun (format_ : FileFormat) =>
    let filepath := joinPath path (name ++ "." ++ format_.extension)
    if isFile filepath then some (filepath, format_) else none
  (tryFmt .py).orElse fun _ => tryFmt .yaml

/-- Identity of a package yielded by family iteration: the family name plus an
optional version string. -/
structure PkgId where
  name : String
  version : Option String
deriving DecidableEq, Repr

namespace FileSystemPackageFamilyResource

/-- Split-family `get_last_release_time`: mtime of `location/name`, or 0 on
`OSError` (the stat is abstracted by `getmtime`, `none` meaning the error). -/
def get_last_release_time (getmtime : String → Option Nat)
    (location name : String) : Nat :=
  match getmtime (joinPath location name) with
  | some t => t
  | none => 0

/-- Split-family `iter_packages`: first probe for an unversioned `package.*`
file under the family directory; if found, yield exactly that one package.
Otherwise list the version directories (`_get_version_dirs`, abstracted as
`version_dirs`, `none` meaning the listing raised) and yield one package per
version. The result is the realized sequence of yielded package identities. -/
def iter_packages (isFile : String → Bool) (location name : String)
    (version_dirs : Option (List String)) : Option (List PkgId) :=
  match _get_file isFile (joinPath location name) "package" with
  | some _ => some [⟨name, none⟩]
  | none => version_dirs.map (List.map fun version_str => ⟨name, some version_str⟩)

end FileSystemPackageFamilyResource

/-- Errors a package document load can raise. -/
inductive LoadErr where
  | packageMetadataError : String → LoadErr
  | parseError : String → LoadErr
deriving DecidableEq, Repr

/-- The on-disk legacy metadata next to a split package, as `_load_old_formats`
probes it: a parsed `release.yaml` (when that file exists), and a `.metadata`
directory optionally holding `changelog.txt` and `release_time.txt` contents. -/
structure LegacyFS where
  release_yaml : Option Doc
  metadata_dir : Bool
  changelog_txt : Option String
  release_time_txt : Option String

/-- Python `s.strip()`: drop leading and trailing whitespace (written over the
character list so that it reduces by computation). -/
def pyStrip (s : String) : String :=
  ⟨((s.data.dropWhile Char.isWhitespace).reverse.dropWhile
      Char.isWhitespace).reverse⟩

/-- Python `int(s)` on an already-stripped string: optional sign followed by
at least one decimal digit; anything else raises, modelled as `none`. -/
def pyInt (s : String) : Option Int :=
  let signAndDigits : Bool × List Char :=
    match s.data with
    | '-' :: rest => (true, rest)
    | '+' :: rest => (false, rest)
    | l => (false, l)
  let digits := signAndDigits.2
  if digits.isEmpty || !(digits.all Char.isDigit) then none
  else
    let n : Nat := digits.foldl (fun a c => a * 10 + (c.toNat - 48)) 0
    some (if signAndDigits.1 then -(n : Int) else (n : Int))

/-- Python string slicing `s[:n]` (character-based, written over the character
list so that it reduces by computation). -/
def pyTake (s : String) (n : Nat) : String := ⟨s.data.take n⟩

namespace FileSystemPackageResource

/-- The `FileFormat.txt` branch of `_update_changelog`: the data is the raw
changelog text; truncate when it exceeds `maxlen + 3` characters
(`maxlen` is `config.max_package_changelog_chars`). -/
def _update_changelog_txt (maxlen : Nat) (data : String) : String :=
  if data.length > maxlen + 3 then pyTake data maxlen ++ "..." else data

/-- The `FileFormat.yaml` branch of `_update_changelog`: the data is a parsed
`release.yaml` document; a truthy changelog that is a list of lines is joined
with newlines (and always written back), then truncated when it exceeds
`maxlen + 3` characters. A changelog value that is neither a string nor a
list would make the source's `len` call fail; such values do not occur. -/
def _update_changelog_yaml (maxlen : Nat) (data : Doc) : Doc :=
  match data.get "changelog" with
  | none => data
  | some changelog =>
    if valTruthy changelog then
      match changelog with
      | .vstrs lines =>
        let changelog := String.intercalate "\n" lines
        let changelog :=
          if changelog.length > maxlen + 3 then pyTake changelog maxlen ++ "..."
          else changelog
        data.set "changelog" (.vstr changelog)
      | .vstr s =>
        if s.length > maxlen + 3 then
          data.set "changelog" (.vstr (pyTake s maxlen ++ "..."))
        else data
      | .vint _ => data
    else data

/-- Split-package `_load_old_formats`: prefer a `release.yaml` (run through the
changelog updater); else, when a `.metadata` directory exists, build a document
from `changelog.txt` (run through the changelog updater) and
`release_time.txt` (stripped and parsed as an integer, parse failures silently
swallowed); else recover nothing (`None`). -/
def _load_old_formats (maxlen : Nat) (fs : LegacyFS) : Option Doc :=
  match fs.release_yaml with
  | some d => some (_update_changelog_yaml maxlen d)
  | none =>
    if fs.metadata_dir then
      let data : Doc := []
      let data :=
        match fs.changelog_txt with
        | some s => data.set "changelog" (.vstr (_update_changelog_txt maxlen s))
        | none => data
      let data :=
        match fs.release_time_txt with
        | some value =>
          match pyInt (pyStrip value) with
          | some n => data.set "timestamp" (.vint n)
          | none => data
        | none => data
      some data
    else none

/-- Split-package `_load`: raise `PackageMetadataError` when no
`package.py`/`package.yaml` exists under the package path; otherwise parse the
file (the metadata loader is abstracted by `load_from_file`), and when the
parsed document has no `timestamp` field, merge in whatever non-empty document
the legacy formats recover. -/
def _load (isFile : String → Bool) (load_from_file : String → Except String Doc)
    (maxlen : Nat) (path : String) (fs : LegacyFS) : Except LoadErr Doc :=
  match _get_file isFile path "package" with
  | none => .error (.packageMetadataError "Missing package definition file")
  | some (filepath, _) =>
    match load_from_file filepath with
    | .error e => .error (.parseError e)
    | .ok data =>
      if (data.get "timestamp").isSome then .ok data
      else
        match _load_old_formats maxlen fs with
        | some data_ => if data_.isEmpty then .ok data else .ok (data.update data_)
        | none => .ok data

end FileSystemPackageResource

/-- A version range, modelled as its containment predicate on version strings:
the version/range library (`rez.vendor.version`) is outside the given source
file, and the load logic only ever asks `version in range_`. -/
abbrev VersionRange := String → Bool

namespace FileSystemCombinedPackageFamilyResource

/-- Combined-family `get_last_release_time`: mtime of `location/name.ext`, or
0 on `OSError`. -/
def get_last_release_time (getmtime : String → Option Nat)
    (location name ext : String) : Nat :=
  match getmtime (joinPath location (name ++ "." ++ ext)) with
  | some t => t
  | none => 0

end FileSystemCombinedPackageFamilyResource

namespace FileSystemCombinedPackageResource

/-- Combined-package `_load`: copy the parent family's document; when it has a
`versions` key, drop that key, set this package's `version` field, and — when
the family's `version_overrides` mapping (passed here in its declared
iteration order, empty when absent) is non-empty — run over ALL of its
entries, merging the fragment of every range containing this version, then
drop the `version_overrides` key. -/
def _load (famData : Doc) (version_str : String)
    (version_overrides : List (VersionRange × Doc)) : Doc :=
  let data := famData
  if (data.get "versions").isSome then
    let data := data.erase "versions"
    let data := data.set "version" (.vstr version_str)
    if version_overrides.isEmpty then data
    else
      let data := version_overrides.foldl
        (fun d p => if p.1 version_str then d.update p.2 else d) data
      data.erase "version_overrides"
  else data

/-- Modelled from the spec's words, for comparison with `_load`: "merges
in-place the override document of the *first* range ... whose range contains
this package's version" — i.e. apply only the first matching range's fragment,
then strip the `version_overrides` key. -/
def specFirstMatchLoad (famData : Doc) (version_str : String)
    (version_overrides : List (VersionRange × Doc)) : Doc :=
  let data := famData
  if (data.get "versions").isSome then
    let data := data.erase "versions"
    let data := data.set "version" (.vstr version_str)
    if version_overrides.isEmpty then data
    else
      let data :=
        match version_overrides.find? (fun p => p.1 version_str) with
        | some p => data.update p.2
        | none => data
      data.erase "version_overrides"
  else data

end FileSystemCombinedPackageResource

/-- The kind of family a name resolves to: a split-layout directory, or a
combined-layout file carrying its extension. -/
inductive FamilyKind where
  | split : FamilyKind
  | combined : String → FamilyKind
deriving DecidableEq, Repr

/-- A resolved family resource identity. -/
structure Family where
  name : String
  kind : FamilyKind
deriving DecidableEq, Repr

namespace FileSystemPackageRepository

/-- Repository `_get_family`: validate the name (raising on an invalid one,
modelled as `Except.error`); prefer a split family when `location/name` is a
directory; else probe `_get_file` for `name.py` / `name.yaml` and return a
combined family; else `None`. The name validator
(`rez.utils.formatting.is_valid_package_name`) is abstracted as a predicate. -/
def _get_family (is_valid_package_name : String → Bool)
    (isDir isFile : String → Bool) (location name : String) :
    Except String (Option Family) :=
  if !is_valid_package_name name then .error "PackageRequestError"
  else if isDir (joinPath location name) then .ok (some ⟨name, .split⟩)
  else
    match _get_file isFile location name with
    | some (_, format_) => .ok (some ⟨name, .combined format_.extension⟩)
    | none => .ok none

end FileSystemPackageRepository

/-- A resource-registry key: the resource kind (e.g. "filesystem.family") plus
the keyword parameters of the `get_resource` call. -/
structure ResourceKey where
  kind : String
  params : List (String × String)
deriving DecidableEq, Repr

/-- Modelled from the spec: the memoized resource registry (`get_resource` of
`rez.package_repository` / the resource pool of `rez.utils.resources`) is not
part of the given source file, which only calls it. Object identity is
modelled by the unique construction id stored in the table. -/
structure ResourcePool where
  table : List (ResourceKey × Nat)
  next_id : Nat

/-- Modelled from the spec: `get_resource(kind, **params)` returns the stored
object when an equal key is present, and otherwise constructs a fresh object,
stores it under the key, and returns it. -/
def get_resource (pool : ResourcePool) (key : ResourceKey) : Nat × ResourcePool :=
  match pool.table.find? (fun e => e.1 == key) with
  | some e => (e.2, pool)
  | none => (pool.next_id, ⟨(key, pool.next_id) :: pool.table, pool.next_id + 1⟩)


/-! Basic lemmas about the document operations. -/

theorem Doc.get_erase (d : Doc) (k k' : String) :
    (d.erase k').get k = if k = k' then none else d.get k := by
  induction d with
  | nil => simp [erase, get]
  | cons p rest ih =>
    obtain ⟨pk, pv⟩ := p
    show Doc.get (if pk = k' then Doc.erase rest k' else (pk, pv) :: Doc.erase rest k') k = _
    by_cases h1 : pk = k'
    · rw [if_pos h1, ih]
      by_cases h2 : k = k'
      · rw [if_pos h2, if_pos h2]
      · rw [if_neg h2, if_neg h2]
        show _ = (if pk = k then some pv else Doc.get rest k)
        rw [if_neg (show ¬pk = k from fun hh => h2 (hh.symm.trans h1))]
    · rw [if_neg h1]
      show (if pk = k then some pv else Doc.get (Doc.erase rest k') k) = _
      by_cases h3 : pk = k
      · by_cases h2 : k = k'
        · exact absurd (h3.trans h2) h1
        · rw [if_pos h3, if_neg h2]
          show _ = (if pk = k then some pv else Doc.get rest k)
          rw [if_pos h3]
      · rw [if_neg h3, ih]
        by_cases h2 : k = k'
        · rw [if_pos h2, if_pos h2]
        · rw [if_neg h2, if_neg h2]
          show _ = (if pk = k then some pv else Doc.get rest k)
          rw [if_neg h3]

theorem Doc.get_set (d : Doc) (k k' : String) (v : Val) :
    (d.set k' v).get k = if k = k' then some v else d.get k := by
  show (if k' = k then some v else (d.erase k').get k) = _
  by_cases h : k = k'
  · rw [if_pos h.symm, if_pos h]
  · rw [if_neg (fun hh => h hh.symm), if_neg h, get_erase, if_neg h]

theorem Doc.get_eq_none_of_not_mem_keys (d : Doc) (k : String) (h : k ∉ d.keys) :
    d.get k = none := by
  induction d with
  | nil => rfl
  | cons p rest ih =>
    obtain ⟨pk, pv⟩ := p
    simp only [keys, List.map_cons, List.mem_cons, not_or] at h
    show (if pk = k then some pv else Doc.get rest k) = none
    rw [if_neg (fun hh => h.1 hh.symm)]
    exact ih (by simpa [keys] using h.2)

theorem Doc.get_update_of_get_eq_none (a b : Doc) (k : String) (h : b.get k = none) :
    (a.update b).get k = a.get k := by
  induction b generalizing a with
  | nil => rfl
  | cons p rest ih =>
    obtain ⟨pk, pv⟩ := p
    have hpk : ¬pk = k := by
      intro hh
      rw [show Doc.get ((pk, pv) :: rest) k = if pk = k then some pv else Doc.get rest k
          from rfl, if_pos hh] at h
      exact Option.noConfusion h
    have hrest : Doc.get rest k = none := by
      rw [show Doc.get ((pk, pv) :: rest) k = if pk = k then some pv else Doc.get rest k
          from rfl, if_neg hpk] at h
      exact h
    show ((a.set pk pv).update rest).get k = a.get k
    rw [ih _ hrest, get_set, if_neg (fun hh => hpk hh.symm)]

theorem Doc.get_update_of_nodup (a b : Doc) (k : String) (v : Val)
    (hnd : b.keys.Nodup) (h : b.get k = some v) :
    (a.update b).get k = some v := by
  induction b generalizing a with
  | nil => exact Option.noConfusion h
  | cons p rest ih =>
    obtain ⟨pk, pv⟩ := p
    simp only [keys, List.map_cons, List.nodup_cons] at hnd
    rw [show Doc.get ((pk, pv) :: rest) k = if pk = k then some pv else Doc.get rest k
        from rfl] at h
    by_cases hk : pk = k
    · rw [if_pos hk] at h
      subst hk
      show ((a.set pk pv).update rest).get pk = some v
      rw [get_update_of_get_eq_none _ _ _
          (get_eq_none_of_not_mem_keys _ _ (by simpa [keys] using hnd.1)),
        get_set, if_pos rfl]
      exact h
    · rw [if_neg hk] at h
      show ((a.set pk pv).update rest).get k = some v
      exact ih _ hnd.2 h

/-- Running the override loop of the combined-package `_load` equals folding
the plain document merge over just the fragments of the matching ranges, kept
in declared order. -/
theorem foldl_override_eq_foldl_filter (v : String) (ov : List (VersionRange × Doc))
    (base : Doc) :
    ov.foldl (fun d p => if p.1 v then d.update p.2 else d) base =
      ((ov.filter (fun p => p.1 v)).map (·.2)).foldl Doc.update base := by
  induction ov generalizing base with
  | nil => rfl
  | cons p rest ih =>
    by_cases h : p.1 v
    · simp only [List.foldl_cons, List.filter_cons, h, if_pos, List.map_cons]
      exact ih _
    · simp only [List.foldl_cons, List.filter_cons, h, Bool.false_eq_true, if_false]
      exact ih _

/-- Claim C1 (counterexample): with versions `["1.0","1.1"]` and two declared
override ranges both containing version `1.0`, the code merges BOTH fragments
(the later one winning on the shared `requires` key), while the claim's
first-match-only reading (`specFirstMatchLoad`) keeps the first fragment;
the two disagree, so the claim as stated is false. -/
theorem combined_load_counterexample_not_first_match_only :
    (FileSystemCombinedPackageResource._load
        [("versions", .vstrs ["1.0", "1.1"]), ("version_overrides", .vint 1)]
        "1.0"
        [(fun v => v == "1.0", [("requires", Val.vstrs ["python-2.5"])]),
         (fun v => v == "1.0" || v == "1.1",
          [("requires", Val.vstrs ["python-2.6"])])]).get "requires"
      = some (.vstrs ["python-2.6"]) ∧
    (FileSystemCombinedPackageResource.specFirstMatchLoad
        [("versions", .vstrs ["1.0", "1.1"]), ("version_overrides", .vint 1)]
        "1.0"
        [(fun v => v == "1.0", [("requires", Val.vstrs ["python-2.5"])]),
         (fun v => v == "1.0" || v == "1.1",
          [("requires", Val.vstrs ["python-2.6"])])]).get "requires"
      = some (.vstrs ["python-2.5"]) ∧
    Val.vstrs ["python-2.6"] ≠ Val.vstrs ["python-2.5"] := by
  decide

/-- Claim C1 (amended): for a combined package whose family document has a
`versions` key and a non-empty `version_overrides` mapping, loading applies
the override fragment of EVERY range containing the package's version, in the
mapping's declared iteration order (later matching fragments overwriting
earlier ones on shared keys), and after the merge the `version_overrides` key
is absent from the returned document. -/
theorem combined_load_applies_all_matching_overrides
    (famData : Doc) (version_str : String) (ov : List (VersionRange × Doc))
    (hv : (famData.get "versions").isSome = true) (hov : ov ≠ []) :
    FileSystemCombinedPackageResource._load famData version_str ov =
      (((ov.filter (fun p => p.1 version_str)).map (·.2)).foldl Doc.update
        ((famData.erase "versions").set "version" (.vstr version_str))).erase
        "version_overrides" ∧
    (FileSystemCombinedPackageResource._load famData version_str ov).get
      "version_overrides" = none := by
  have hle : ov.isEmpty = false := by
    cases ov with
    | nil => exact absurd rfl hov
    | cons a l => rfl
  have hmain : FileSystemCombinedPackageResource._load famData version_str ov =
      (((ov.filter (fun p => p.1 version_str)).map (·.2)).foldl Doc.update
        ((famData.erase "versions").set "version" (.vstr version_str))).erase
        "version_overrides" := by
    unfold FileSystemCombinedPackageResource._load
    rw [if_pos hv, hle]
    simp only [Bool.false_eq_true, if_false, foldl_override_eq_foldl_filter]
  refine ⟨hmain, ?_⟩
  rw [hmain, Doc.get_erase, if_pos rfl]

/-- Claim C1 (witness): the amended theorem applied at a concrete input — a
family document with a `versions` key and one declared non-matching range. -/
theorem combined_load_applies_all_matching_overrides_witness :
    (FileSystemCombinedPackageResource._load [("versions", Val.vstrs ["1"])]
      "1" [(fun _ => false, ([] : Doc))]).get "version_overrides" = none :=
  (combined_load_applies_all_matching_overrides [("versions", Val.vstrs ["1"])]
    "1" [(fun _ => false, ([] : Doc))] (by decide) (List.cons_ne_nil _ _)).2

/-- Claim C2 (counterexample): a parsed split-package document lacking a
`timestamp` field but already carrying a `changelog` field ("kept"); legacy
backfill recovers a changelog ("old"); the load returns the RECOVERED value,
overwriting the field that was already present, contradicting the claim's
"without overwriting any field already present". -/
theorem split_load_counterexample_overwrites_existing_field :
    FileSystemPackageResource._load (fun p => p == "loc/pkg/package.py")
      (fun _ => .ok [("changelog", .vstr "kept")]) 100 "loc/pkg"
      ⟨none, true, some "old", none⟩ =
      .ok [("changelog", .vstr "old")] ∧
    Val.vstr "old" ≠ Val.vstr "kept" :=
  ⟨rfl, by decide⟩

/-- Claim C2 (amended): when a freshly parsed split-package document lacks a
`timestamp` field and legacy backfill recovers a non-empty document, the
recovered fields are merged into the parsed document with the RECOVERED values
taking precedence (overwriting same-named fields already present); fields the
backfill does not recover keep their parsed values. -/
theorem split_load_merges_legacy_with_precedence
    (isFile : String → Bool) (loader : String → Except String Doc)
    (maxlen : Nat) (path : String) (fs : LegacyFS)
    (fp : String) (fmt : FileFormat) (parsed d : Doc)
    (hfile : _get_file isFile path "package" = some (fp, fmt))
    (hparse : loader fp = .ok parsed)
    (hts : parsed.get "timestamp" = none)
    (hold : FileSystemPackageResource._load_old_formats maxlen fs = some d)
    (hne : d ≠ []) :
    FileSystemPackageResource._load isFile loader maxlen path fs =
      .ok (parsed.update d) ∧
    (∀ k v, d.get k = none → parsed.get k = some v →
      (parsed.update d).get k = some v) ∧
    (∀ k v, d.keys.Nodup → d.get k = some v →
      (parsed.update d).get k = some v) := by
  have hie : d.isEmpty = false := by
    cases d with
    | nil => exact absurd rfl hne
    | cons a l => rfl
  refine ⟨?_, ?_, ?_⟩
  · unfold FileSystemPackageResource._load
    rw [hfile]
    simp only [hparse, hts, hold, hie, Option.isSome_none, Bool.false_eq_true,
      if_false]
  · intro k v h1 h2
    rw [Doc.get_update_of_get_eq_none _ _ _ h1]
    exact h2
  · intro k v hnd h
    exact Doc.get_update_of_nodup _ _ _ _ hnd h

/-- Claim C2 (witness): the amended theorem applied at a concrete input — a
parsed document with only a description, legacy backfill recovering a
timestamp. -/
theorem split_load_merges_legacy_with_precedence_witness :
    FileSystemPackageResource._load (fun p => p == "loc/pkg/package.py")
      (fun _ => .ok [("description", Val.vstr "d")]) 10 "loc/pkg"
      ⟨none, true, none, some "7"⟩ =
      .ok (Doc.update [("description", Val.vstr "d")] [("timestamp", Val.vint 7)]) :=
  (split_load_merges_legacy_with_precedence (fun p => p == "loc/pkg/package.py")
    (fun _ => .ok [("description", Val.vstr "d")]) 10 "loc/pkg"
    ⟨none, true, none, some "7"⟩ "loc/pkg/package.py" .py
    [("description", Val.vstr "d")] [("timestamp", Val.vint 7)]
    (by decide) rfl (by decide) (by decide) (by decide)).1

/-- Claim C3 (counterexample): with a character budget of 5, the changelog
"123456" is longer than the budget yet is returned unchanged (the code only
truncates beyond budget + 3), contradicting the claim that any changelog
exceeding the budget is truncated. -/
theorem changelog_truncation_counterexample :
    FileSystemPackageResource._update_changelog_txt 5 "123456" = "123456" ∧
    "123456".length > 5 ∧
    ("123456" : String) ≠ "12345" ++ "..." := by
  decide

/-- Claim C3 (amended): a changelog recovered during legacy migration is
truncated exactly when its length exceeds the budget PLUS the 3-character
marker; a truncated changelog is exactly the first `budget` characters with
the 3-character marker appended (total length budget + 3); a changelog within
budget + 3 is returned unchanged; and a changelog supplied as a list of lines
is first joined with newlines, then put through the same length check. -/
theorem changelog_truncation_behavior (maxlen : Nat) (s : String)
    (lines : List String) :
    (s.length ≤ maxlen + 3 →
      FileSystemPackageResource._update_changelog_txt maxlen s = s) ∧
    (s.length > maxlen + 3 →
      FileSystemPackageResource._update_changelog_txt maxlen s =
        pyTake s maxlen ++ "..." ∧
      (FileSystemPackageResource._update_changelog_txt maxlen s).length =
        maxlen + 3) ∧
    (∀ d : Doc, d.get "changelog" = some (.vstrs lines) → lines ≠ [] →
      (FileSystemPackageResource._update_changelog_yaml maxlen d).get
        "changelog" =
        some (.vstr (FileSystemPackageResource._update_changelog_txt maxlen
          (String.intercalate "\n" lines)))) := by
  refine ⟨?_, ?_, ?_⟩
  · intro h
    unfold FileSystemPackageResource._update_changelog_txt
    rw [if_neg (by omega)]
  · intro h
    have heq : FileSystemPackageResource._update_changelog_txt maxlen s =
        pyTake s maxlen ++ "..." := by
      unfold FileSystemPackageResource._update_changelog_txt
      rw [if_pos (by omega)]
    refine ⟨heq, ?_⟩
    rw [heq, String.length_append, ← String.length_data]
    have htk : (pyTake s maxlen).data = s.data.take maxlen := rfl
    rw [htk, List.length_take, String.length_data]
    have h3 : ("..." : String).length = 3 := by decide
    rw [h3]
    omega
  · intro d hd hlines
    have hemp : lines.isEmpty = false := by
      cases lines with
      | nil => exact absurd rfl hlines
      | cons a l => rfl
    unfold FileSystemPackageResource._update_changelog_yaml
    rw [hd]
    simp only [valTruthy, hemp, Bool.not_false, if_pos]
    rw [Doc.get_set, if_pos rfl]
    rfl

/-- Claim C3 (witness): the amended theorem applied at a concrete input —
budget 5, a changelog of length 9 truncated to "12345..." of length 8. -/
theorem changelog_truncation_behavior_witness :
    FileSystemPackageResource._update_changelog_txt 5 "123456789" =
      pyTake "123456789" 5 ++ "..." ∧
    (FileSystemPackageResource._update_changelog_txt 5 "123456789").length =
      5 + 3 :=
  (changelog_truncation_behavior 5 "123456789" []).2.1 (by decide)

/-- Claim C4 (confirmed): a split-layout family directory holding a top-level
`package.py`/`package.yaml` yields exactly the single unversioned package from
`iter_packages`, whatever the version subdirectories are — including when the
version-directory listing would fail (`version_dirs = none`), showing the
unversioned probe is decided before any version scan. -/
theorem split_family_unversioned_precedence
    (isFile : String → Bool) (location name : String)
    (version_dirs : Option (List String)) (fp : String) (fmt : FileFormat)
    (h : _get_file isFile (joinPath location name) "package" = some (fp, fmt)) :
    FileSystemPackageFamilyResource.iter_packages isFile location name
      version_dirs = some [⟨name, none⟩] := by
  unfold FileSystemPackageFamilyResource.iter_packages
  rw [h]

/-- Claim C4 (witness): the theorem applied at a concrete family that has both
a top-level package file and two version subdirectories. -/
theorem split_family_unversioned_precedence_witness :
    FileSystemPackageFamilyResource.iter_packages
      (fun p => p == "loc/fam/package.py") "loc" "fam"
      (some ["1.0", "2.0"]) = some [⟨"fam", none⟩] :=
  split_family_unversioned_precedence (fun p => p == "loc/fam/package.py")
    "loc" "fam" (some ["1.0", "2.0"]) "loc/fam/package.py" .py (by decide)

/-- Claim C5 (confirmed): `_get_family` raises on an invalid name; for a valid
name a same-named subdirectory wins (split family, regardless of any
same-named combined file); otherwise a `name.py` file is probed before
`name.yaml` (combined family); otherwise the result is `None`, not an
exception. -/
theorem get_family_resolution
    (valid isDir isFile : String → Bool) (location name : String) :
    (valid name = false →
      FileSystemPackageRepository._get_family valid isDir isFile location name =
        .error "PackageRequestError") ∧
    (valid name = true → isDir (joinPath location name) = true →
      FileSystemPackageRepository._get_family valid isDir isFile location name =
        .ok (some ⟨name, .split⟩)) ∧
    (valid name = true → isDir (joinPath location name) = false →
      isFile (joinPath location (name ++ "." ++ "py")) = true →
      FileSystemPackageRepository._get_family valid isDir isFile location name =
        .ok (some ⟨name, .combined "py"⟩)) ∧
    (valid name = true → isDir (joinPath location name) = false →
      isFile (joinPath location (name ++ "." ++ "py")) = false →
      isFile (joinPath location (name ++ "." ++ "yaml")) = true →
      FileSystemPackageRepository._get_family valid isDir isFile location name =
        .ok (some ⟨name, .combined "yaml"⟩)) ∧
    (valid name = true → isDir (joinPath location name) = false →
      isFile (joinPath location (name ++ "." ++ "py")) = false →
      isFile (joinPath location (name ++ "." ++ "yaml")) = false →
      FileSystemPackageRepository._get_family valid isDir isFile location name =
        .ok none) := by
  refine ⟨?_, ?_, ?_, ?_, ?_⟩
  · intro h
    simp [FileSystemPackageRepository._get_family, h]
  · intro h1 h2
    simp [FileSystemPackageRepository._get_family, h1, h2]
  · intro h1 h2 h3
    simp [FileSystemPackageRepository._get_family, _get_file,
      FileFormat.extension, h1, h2, h3]
  · intro h1 h2 h3 h4
    simp [FileSystemPackageRepository._get_family, _get_file,
      FileFormat.extension, h1, h2, h3, h4]
  · intro h1 h2 h3 h4
    simp [FileSystemPackageRepository._get_family, _get_file,
      FileFormat.extension, h1, h2, h3, h4]

/-- Claim C5 (witness): the theorem applied at a concrete location where both
a directory `loc/p` and a file `loc/p.py` exist — the split family wins. -/
theorem get_family_resolution_witness :
    FileSystemPackageRepository._get_family (fun _ => true)
      (fun d => d == "loc/p") (fun _ => true) "loc" "p" =
      .ok (some ⟨"p", .split⟩) :=
  (get_family_resolution (fun _ => true) (fun d => d == "loc/p")
    (fun _ => true) "loc" "p").2.1 (by decide) (by decide)

/-- With a package file found, the split-package load proceeds to the parse
stage: its result is determined by the loader and the legacy backfill. -/
theorem split_load_of_file_found (isFile : String → Bool)
    (loader : String → Except String Doc) (maxlen : Nat) (path : String)
    (fs : LegacyFS) (fp : String) (fmt : FileFormat)
    (hg : _get_file isFile path "package" = some (fp, fmt)) :
    FileSystemPackageResource._load isFile loader maxlen path fs =
      (match loader fp with
       | Except.error e => Except.error (LoadErr.parseError e)
       | Except.ok data =>
         if (data.get "timestamp").isSome then Except.ok data
         else
           match FileSystemPackageResource._load_old_formats maxlen fs with
           | some data_ =>
             if data_.isEmpty then Except.ok data
             else Except.ok (data.update data_)
           | none => Except.ok data) := by
  unfold FileSystemPackageResource._load
  rw [hg]

/-- Claim C6 (confirmed): the split-package `_load` raises the
`PackageMetadataError` exactly when `_get_file` found no
`package.py`/`package.yaml` under the package path — equivalently, when
neither file exists; with a file present the load never raises that error
(it either parses or propagates a parse error). Resource resolution itself is
modelled without any filesystem input, so it cannot fail for a missing file. -/
theorem split_load_metadata_missing_iff
    (isFile : String → Bool) (loader : String → Except String Doc)
    (maxlen : Nat) (path : String) (fs : LegacyFS) :
    ((∃ msg, FileSystemPackageResource._load isFile loader maxlen path fs =
        .error (.packageMetadataError msg)) ↔
      _get_file isFile path "package" = none) ∧
    (_get_file isFile path "package" = none ↔
      (isFile (joinPath path "package.py") = false ∧
       isFile (joinPath path "package.yaml") = false)) := by
  constructor
  · constructor
    · rintro ⟨msg, hmsg⟩
      cases hg : _get_file isFile path "package" with
      | none => rfl
      | some pr =>
        exfalso
        obtain ⟨fp, fmt⟩ := pr
        rw [split_load_of_file_found isFile loader maxlen path fs fp fmt hg]
          at hmsg
        cases hl : loader fp with
        | error e =>
          rw [hl] at hmsg
          exact LoadErr.noConfusion (Except.error.inj hmsg)
        | ok data =>
          simp only [hl] at hmsg
          by_cases hts : (data.get "timestamp").isSome = true
          · rw [if_pos hts] at hmsg
            exact Except.noConfusion hmsg
          · rw [if_neg hts] at hmsg
            cases ho : FileSystemPackageResource._load_old_formats maxlen fs with
            | none =>
              simp only [ho] at hmsg
              exact Except.noConfusion hmsg
            | some d =>
              simp only [ho] at hmsg
              by_cases hemp : d.isEmpty = true
              · rw [if_pos hemp] at hmsg
                exact Except.noConfusion hmsg
              · rw [if_neg hemp] at hmsg
                exact Except.noConfusion hmsg
    · intro hnone
      refine ⟨"Missing package definition file", ?_⟩
      unfold FileSystemPackageResource._load
      rw [hnone]
  · unfold _get_file
    by_cases h1 : isFile (joinPath path "package.py") = true
    · simp [FileFormat.extension, h1, Option.orElse]
    · by_cases h2 : isFile (joinPath path "package.yaml") = true
      · simp [FileFormat.extension, h1, h2, Option.orElse]
      · simp [FileFormat.extension, h1, h2, Option.orElse]

/-- Claim C6 (witness): with no file on disk at all, the load does fail with
the metadata-missing error. -/
theorem split_load_metadata_missing_iff_witness :
    ∃ msg, FileSystemPackageResource._load (fun _ => false)
      (fun _ => .ok []) 0 "loc/pkg" ⟨none, false, none, none⟩ =
        .error (.packageMetadataError msg) :=
  ((split_load_metadata_missing_iff (fun _ => false) (fun _ => .ok []) 0
    "loc/pkg" ⟨none, false, none, none⟩).1).mpr (by decide)

/-- Claim C7 (confirmed, modelled from the spec): `get_resource` is
idempotent — after one lookup of a key, looking the same key up again returns
the very object stored by the first lookup and leaves the registry unchanged
(no duplicate construction), which is what makes parent/child lookups through
the registry land on identical objects. -/
theorem get_resource_idempotent (pool : ResourcePool) (key : ResourceKey) :
    get_resource (get_resource pool key).2 key =
      ((get_resource pool key).1, (get_resource pool key).2) := by
  unfold get_resource
  cases h : pool.table.find? (fun e => e.1 == key) with
  | some e => simp only [h]
  | none =>
    simp only [h]
    have hfind : (((key, pool.next_id) :: pool.table).find?
        (fun e => e.1 == key)) = some (key, pool.next_id) := by
      simp [List.find?]
    simp [hfind]

/-- Claim C8 (confirmed): `get_last_release_time` for both family layouts is a
total function of the mtime lookup: it returns the modification time of the
family directory (split) resp. family file (combined) when the stat succeeds,
and the sentinel 0 when it fails — it never raises. -/
theorem get_last_release_time_total
    (getmtime : String → Option Nat) (location name ext : String) :
    (∀ t, getmtime (joinPath location name) = some t →
      FileSystemPackageFamilyResource.get_last_release_time getmtime
        location name = t) ∧
    (getmtime (joinPath location name) = none →
      FileSystemPackageFamilyResource.get_last_release_time getmtime
        location name = 0) ∧
    (∀ t, getmtime (joinPath location (name ++ "." ++ ext)) = some t →
      FileSystemCombinedPackageFamilyResource.get_last_release_time getmtime
        location name ext = t) ∧
    (getmtime (joinPath location (name ++ "." ++ ext)) = none →
      FileSystemCombinedPackageFamilyResource.get_last_release_time getmtime
        location name ext = 0) := by
  refine ⟨?_, ?_, ?_, ?_⟩
  · intro t h
    unfold FileSystemPackageFamilyResource.get_last_release_time
    rw [h]
  · intro h
    unfold FileSystemPackageFamilyResource.get_last_release_time
    rw [h]
  · intro t h
    unfold FileSystemCombinedPackageFamilyResource.get_last_release_time
    rw [h]
  · intro h
    unfold FileSystemCombinedPackageFamilyResource.get_last_release_time
    rw [h]

/-- Claim C8 (witness): the theorem applied to a concrete mtime lookup that
succeeds on the family directory, and to one that always fails. -/
theorem get_last_release_time_total_witness :
    FileSystemPackageFamilyResource.get_last_release_time
      (fun p => if p == "loc/fam" then some 42 else none) "loc" "fam" = 42 ∧
    FileSystemCombinedPackageFamilyResource.get_last_release_time
      (fun _ => none) "loc" "fam" "py" = 0 :=
  ⟨(get_last_release_time_total
      (fun p => if p == "loc/fam" then some 42 else none) "loc" "fam" "py").1
      42 (by decide),
   (get_last_release_time_total (fun _ => none) "loc" "fam" "py").2.2.2 rfl⟩

/-- Claim C9 (confirmed): during rez-1 legacy backfill, a readable
`release_time.txt` whose stripped content parses as an integer yields a
recovered document whose `timestamp` equals that integer; a content that does
not parse leaves the load succeeding with `timestamp` absent from the
recovered document. -/
theorem legacy_timestamp_parse (maxlen : Nat) (fs : LegacyFS) (s : String)
    (h1 : fs.release_yaml = none) (h2 : fs.metadata_dir = true)
    (h3 : fs.release_time_txt = some s) :
    (∀ n : Int, pyInt (pyStrip s) = some n →
      ∃ d : Doc, FileSystemPackageResource._load_old_formats maxlen fs = some d ∧
        d.get "timestamp" = some (.vint n)) ∧
    (pyInt (pyStrip s) = none →
      ∃ d : Doc, FileSystemPackageResource._load_old_formats maxlen fs = some d ∧
        d.get "timestamp" = none) := by
  obtain ⟨ry, md, cl, rt⟩ := fs
  cases h1
  cases h2
  cases h3
  constructor
  · intro n hn
    unfold FileSystemPackageResource._load_old_formats
    simp only [hn]
    cases cl with
    | none => exact ⟨_, rfl, by rw [Doc.get_set, if_pos rfl]⟩
    | some c => exact ⟨_, rfl, by rw [Doc.get_set, if_pos rfl]⟩
  · intro hn
    unfold FileSystemPackageResource._load_old_formats
    simp only [hn]
    cases cl with
    | none => exact ⟨_, rfl, rfl⟩
    | some c =>
      refine ⟨_, rfl, ?_⟩
      rw [Doc.get_set, if_neg (by decide)]
      rfl

/-- Claim C9 (witness): the theorem applied at the spec's own example inputs:
content "1400000000" produces `timestamp = 1400000000`; content
"not-a-number" leaves `timestamp` absent while the load still succeeds. -/
theorem legacy_timestamp_parse_witness :
    (∃ d : Doc, FileSystemPackageResource._load_old_formats 100
        ⟨none, true, none, some "1400000000"⟩ = some d ∧
      d.get "timestamp" = some (.vint 1400000000)) ∧
    (∃ d : Doc, FileSystemPackageResource._load_old_formats 100
        ⟨none, true, none, some "not-a-number"⟩ = some d ∧
      d.get "timestamp" = none) :=
  ⟨(legacy_timestamp_parse 100 ⟨none, true, none, some "1400000000"⟩
      "1400000000" rfl rfl rfl).1 1400000000 (by decide),
   (legacy_timestamp_parse 100 ⟨none, true, none, some "not-a-number"⟩
      "not-a-number" rfl rfl rfl).2 (by decide)⟩

/-- Claim C10 (confirmed): the combined-package load strips
`version_overrides` only when the family document has a `versions` key AND the
declared overrides mapping is non-empty; with no `versions` key the returned
document is exactly the family document (no `version` field set either), and
with an empty overrides mapping the `version_overrides` entry is retained
unchanged while the `version` field is still set. -/
theorem combined_load_version_overrides_retention
    (famData : Doc) (version_str : String) (ov : List (VersionRange × Doc)) :
    (famData.get "versions" = none →
      FileSystemCombinedPackageResource._load famData version_str ov = famData) ∧
    ((famData.get "versions").isSome = true → ov = [] →
      (FileSystemCombinedPackageResource._load famData version_str ov).get
        "version_overrides" = famData.get "version_overrides" ∧
      (FileSystemCombinedPackageResource._load famData version_str ov).get
        "version" = some (.vstr version_str)) ∧
    ((famData.get "versions").isSome = true → ov ≠ [] →
      (FileSystemCombinedPackageResource._load famData version_str ov).get
        "version_overrides" = none) := by
  refine ⟨?_, ?_, ?_⟩
  · intro h
    simp [FileSystemCombinedPackageResource._load, h]
  · intro hv he
    subst he
    have hload : FileSystemCombinedPackageResource._load famData version_str [] =
        (famData.erase "versions").set "version" (.vstr version_str) := by
      simp [FileSystemCombinedPackageResource._load, hv]
    rw [hload]
    constructor
    · rw [Doc.get_set, if_neg (by decide), Doc.get_erase, if_neg (by decide)]
    · rw [Doc.get_set, if_pos rfl]
  · intro hv hne
    have hle : ov.isEmpty = false := by
      cases ov with
      | nil => exact absurd rfl hne
      | cons a l => rfl
    have hload : FileSystemCombinedPackageResource._load famData version_str ov =
        (ov.foldl (fun d p => if p.1 version_str then d.update p.2 else d)
          ((famData.erase "versions").set "version" (.vstr version_str))).erase
          "version_overrides" := by
      simp [FileSystemCombinedPackageResource._load, hv, hle]
    rw [hload, Doc.get_erase, if_pos rfl]

/-- Claim C10 (witness): the theorem's retention conjuncts applied at concrete
inputs — a family document without `versions` is returned untouched, and one
with `versions` but an empty overrides mapping keeps its `version_overrides`
entry. -/
theorem combined_load_version_overrides_retention_witness :
    FileSystemCombinedPackageResource._load
      [("name", Val.vstr "p"), ("version_overrides", Val.vint 1)] "1" [] =
      [("name", Val.vstr "p"), ("version_overrides", Val.vint 1)] ∧
    (FileSystemCombinedPackageResource._load
      [("versions", Val.vstrs ["1"]), ("version_overrides", Val.vint 1)]
      "1" []).get "version_overrides" = some (Val.vint 1) :=
  ⟨(combined_load_version_overrides_retention
      [("name", Val.vstr "p"), ("version_overrides", Val.vint 1)] "1" []).1
      (by decide),
   by
    rw [(combined_load_version_overrides_retention
      [("versions", Val.vstrs ["1"]), ("version_overrides", Val.vint 1)]
      "1" []).2.1 (by decide) rfl |>.1]
    decide⟩

end Rez
